import Mathlib

/-
Verification of the self0 Telegram userbot (src/self.py, src/self2.py).

This file gives a shallow embedding, in Lean, of the data model and the
operations of the userbot that the verified claims are about: the AFK
subsystem (state toggle and auto-reply cooldown), the duration parser and
the ban/mute argument classification, the warning system, the purge
command, the calc sanitizer, the admin-permission gate, the Base64
encode/decode commands, and the two deferred-delivery polling loops.

External collaborators (the Telegram transport, the SQL storage engine,
the HTTP APIs) are modelled only by the interface the handlers consume:
sends are abstracted into outcome values, the SQL table into a Lean list
of records, and the event-loop clock into a natural-number timestamp.
Python dynamic typing is modelled explicitly where a handler's behaviour
depends on it.
-/

namespace Self0

/-! ### AFK subsystem (src/self2.py lines 116-122, 698-788; src/self.py lines 79-85, 406-472) -/

/-- Embedding of the global `AFK_STATUS` dict: `is_afk`, `reason`,
`start_time` and the per-counterpart cooldown map
`last_afk_message_time`, kept as an association list from user id to the
timestamp of the last AFK auto-reply. -/
structure AfkStatus where
  is_afk : Bool
  reason : Option String
  start_time : Option Nat
  last_afk_message_time : List (Nat × Nat)
deriving DecidableEq

/-- Embedding of `AFK_MESSAGE_COOLDOWN = 60` (seconds). -/
def AFK_MESSAGE_COOLDOWN : Nat := 60

/-- Initial value of `AFK_STATUS` at process start. -/
def AFK_STATUS_init : AfkStatus :=
  { is_afk := false, reason := none, start_time := none, last_afk_message_time := [] }

/-- Lookup `m[u]` in the cooldown map (`user_id in AFK_STATUS[...]` plus the read). -/
def lookupTime (m : List (Nat × Nat)) (u : Nat) : Option Nat :=
  (m.find? (fun p => p.1 == u)).map (fun p => p.2)

/-- Embedding of the dict assignment `m[u] = t`. The handlers only ever read the
map pointwise through `lookupTime`, so the insertion order of the underlying
Python dict is never observed and the representation below is adequate. -/
def setTime (m : List (Nat × Nat)) (u : Nat) (t : Nat) : List (Nat × Nat) :=
  (u, t) :: m.filter (fun p => !(p.1 == u))

/-- Embedding of `afk_command_handler` (src/self2.py lines 698-745; the
src/self.py version at lines 406-426 performs the identical in-memory
transition). The mirrored database row is owned by the storage collaborator
and carries no behaviour of its own, so it is not part of the state here.
Deactivating clears `reason`, `start_time` and the cooldown map; activating
records the reason (defaulted when absent or empty, since Python `not reason`
is true for the empty string) and the start time, and also clears the map. -/
def afk_command_handler (now : Nat) (arg : Option String) (st : AfkStatus) : AfkStatus :=
  if st.is_afk then
    { is_afk := false, reason := none, start_time := none, last_afk_message_time := [] }
  else
    let reason := match arg with
      | none => "Not available at the moment."
      | some s => if s = "" then "Not available at the moment." else s
    { is_afk := true, reason := some reason, start_time := some now, last_afk_message_time := [] }

/-- Inbound message as seen by the AFK listener: the sender id, whether the
sender is a bot, whether the chat is private, and whether the owner is
mentioned (for group chats). -/
structure InboundMsg where
  from_id : Nat
  is_bot : Bool
  is_private : Bool
  mentioned : Bool
deriving DecidableEq

/-- Dispatch condition of the AFK listener: the pyrogram filter
`filters.private & ~filters.me | filters.group & ~filters.me & filters.mentioned`
(src/self2.py line 748; src/self.py lines 429-430 stack the same two cases). -/
def afkListenerFilter (owner : Nat) (msg : InboundMsg) : Bool :=
  (msg.is_private && !(msg.from_id == owner)) ||
    (!msg.is_private && !(msg.from_id == owner) && msg.mentioned)

/-- Embedding of `afk_reply_handler` (src/self2.py lines 749-788; the cooldown
logic of src/self.py lines 431-472 is identical). Returns the new state and
whether an auto-reply was sent. The cooldown check and the timestamp update
(lines 767-771) contain no await and are a single synchronous stretch in the
source, hence one atomic step here. The anonymous-admin guard of line 760
concerns messages carrying a `sender_chat` and is vacuous for the ordinary
user counterparts quantified over by the claims. -/
def afk_reply_handler (owner : Nat) (now : Nat) (msg : InboundMsg) (st : AfkStatus) :
    AfkStatus × Bool :=
  if st.is_afk && !msg.is_bot then
    if msg.from_id == owner then (st, false)
    else
      match lookupTime st.last_afk_message_time msg.from_id with
      | some t =>
        if now - t < AFK_MESSAGE_COOLDOWN then (st, false)
        else
          ({ st with last_afk_message_time := setTime st.last_afk_message_time msg.from_id now },
            true)
      | none =>
        ({ st with last_afk_message_time := setTime st.last_afk_message_time msg.from_id now },
          true)
  else (st, false)

/-- Run the AFK listener over a sequence of timestamped inbound messages,
counting the auto-replies sent. -/
def processAfkMsgs (owner : Nat) (msgs : List (Nat × InboundMsg)) (st : AfkStatus) :
    AfkStatus × Nat :=
  match msgs with
  | [] => (st, 0)
  | (t, m) :: rest =>
    let step := afk_reply_handler owner t m st
    let outcome := processAfkMsgs owner rest step.1
    (outcome.1, (if step.2 then 1 else 0) + outcome.2)

/-- State invariant of the AFK singleton: Inactive implies reason, start time
and cooldown map are all cleared. -/
def AfkInv (st : AfkStatus) : Prop :=
  st.is_afk = false →
    st.reason = none ∧ st.start_time = none ∧ st.last_afk_message_time = []

instance (st : AfkStatus) : Decidable (AfkInv st) := by
  unfold AfkInv
  infer_instance

/-! ### Duration parsing (src/self2.py lines 2352-2377) -/

/-- Seconds per duration unit, as summed by `parse_time_duration`. -/
def unitSeconds (u : Char) : Nat :=
  if u = 'd' then 86400 else if u = 'h' then 3600 else if u = 'm' then 60
  else if u = 's' then 1 else 0

/-- Scanner for the regex `findall` of `(\d+)([dhms])`: a maximal digit run
immediately followed by a unit letter yields one match; digit runs not
followed by a unit letter, and all other characters, yield none. The
accumulator carries the value of the digit run currently being read. -/
def scanDuration : List Char → Option Nat → List (Nat × Char)
  | [], _ => []
  | c :: cs, acc =>
    if c.isDigit then scanDuration cs (some ((acc.getD 0) * 10 + (c.toNat - 48)))
    else
      match acc with
      | some v =>
        if c = 'd' ∨ c = 'h' ∨ c = 'm' ∨ c = 's' then (v, c) :: scanDuration cs none
        else scanDuration cs none
      | none => scanDuration cs none

/-- Embedding of `parse_time_duration` (src/self2.py lines 2352-2377): lower
the input, collect the `(\d+)([dhms])` matches, reject when there is no match
or the units sum to zero seconds, and otherwise return the total in seconds. -/
def parse_time_duration (duration_str : String) : Option Nat :=
  let found := scanDuration (duration_str.data.map Char.toLower) none
  if found = [] then none
  else
    let total_seconds := (found.map (fun p => p.1 * unitSeconds p.2)).sum
    if total_seconds = 0 then none else some total_seconds

/-! ### Warning system (src/self2.py lines 172-178, 3093-3183) -/

/-- Embedding of the `Warning` table row: primary key `id`, the
`(user_id, chat_id)` pair, the issuing admin, the reason and the issue
timestamp. -/
structure WarnRecord where
  id : Nat
  user_id : Int
  chat_id : Int
  admin_id : Int
  reason : String
  timestamp : Nat
deriving DecidableEq

/-- Embedding of the query filter
`Warning.user_id == target, Warning.chat_id == chat`. -/
def matchingWarnings (u c : Int) (tbl : List WarnRecord) : List WarnRecord :=
  tbl.filter (fun w => w.user_id == u && w.chat_id == c)

/-- Descending-timestamp order used by `order_by(Warning.timestamp.desc())`. -/
def warnDesc (a b : WarnRecord) : Prop := b.timestamp ≤ a.timestamp

instance : DecidableRel warnDesc := fun a b => Nat.decLe b.timestamp a.timestamp

instance : IsTotal WarnRecord warnDesc :=
  ⟨fun a b => Nat.le_total b.timestamp a.timestamp⟩

instance : IsTrans WarnRecord warnDesc :=
  ⟨fun _ _ _ h1 h2 => Nat.le_trans h2 h1⟩

/-- Embedding of the `ORDER BY timestamp DESC` result list. -/
def orderByTimestampDesc (l : List WarnRecord) : List WarnRecord :=
  l.insertionSort warnDesc

/-- Embedding of `session.delete(row)`: remove the row with the given primary
key from the table. -/
def removeById (i : Nat) : List WarnRecord → List WarnRecord
  | [] => []
  | w :: ws => if w.id = i then ws else w :: removeById i ws

/-- Replies of the unwarn command. -/
inductive UnwarnReply
  | removed (remaining : Nat)
  | noWarnings
deriving DecidableEq

/-- Embedding of `unwarn_command_handler` (src/self2.py lines 3144-3183):
fetch the matching warnings ordered by timestamp descending, and if any
exist delete `warnings[-1]` (the last of the descending list, hence the
oldest) and report the remaining count, else reply that the user has no
warnings and delete nothing. -/
def unwarn_command_handler (u c : Int) (tbl : List WarnRecord) :
    List WarnRecord × UnwarnReply :=
  let warnings := orderByTimestampDesc (matchingWarnings u c tbl)
  match warnings.getLast? with
  | some oldest => (removeById oldest.id tbl, .removed (warnings.length - 1))
  | none => (tbl, .noWarnings)

/-- Embedding of `warn_command_handler` (src/self2.py lines 3093-3142): append
a new warning row for the pair and report the new total. -/
def warn_command_handler (u c admin : Int) (reason : Option String) (newId : Nat)
    (now : Nat) (tbl : List WarnRecord) : List WarnRecord × Nat :=
  let r := reason.getD "No reason specified."
  let tbl2 := tbl ++ [⟨newId, u, c, admin, r, now⟩]
  (tbl2, (matchingWarnings u c tbl2).length)

/-! ### Deferred delivery (src/self2.py lines 156-163, 180-186, 4195-4286) -/

/-- Embedding of the `Reminder` table row (src/self2.py lines 156-163). -/
structure Reminder where
  id : Nat
  user_id : Int
  chat_id : Int
  message_id : Nat
  remind_time : Nat
  text : String
  is_active : Bool
deriving DecidableEq

/-- Embedding of the `ScheduledMessage` table row (src/self2.py lines 180-186). -/
structure ScheduledMessage where
  id : Nat
  user_id : Int
  chat_id : Int
  send_time : Nat
  message_text : String
  is_sent : Bool
deriving DecidableEq

/-- Outcome of one delivery attempt by the transport: the send succeeds, or
fails permanently with `Forbidden`, or fails with any other (transient)
exception. `MessageIdInvalid` on the threaded reminder send is retried
untargeted inside the same attempt (src/self2.py lines 4255-4272) and so
folds into these three outcomes. -/
inductive SendOutcome
  | success
  | forbidden
  | transient
deriving DecidableEq

/-- Selection condition of the reminder loop query
(`is_active == True and remind_time <= now`, src/self2.py lines 4245-4250). -/
def reminderDue (now : Nat) (r : Reminder) : Bool :=
  r.is_active && decide (r.remind_time ≤ now)

/-- Selection condition of the scheduled-message loop query
(`is_sent == False and send_time <= now`, src/self2.py lines 4206-4211). -/
def scheduledDue (now : Nat) (m : ScheduledMessage) : Bool :=
  !m.is_sent && decide (m.send_time ≤ now)

/-- Flag update applied to a due scheduled message after its send attempt
(src/self2.py lines 4213-4227): success and `Forbidden` both set
`is_sent = True`; any other exception leaves the row untouched. -/
def scheduledDeliver (out : SendOutcome) (m : ScheduledMessage) : ScheduledMessage :=
  match out with
  | .transient => m
  | _ => { m with is_sent := true }

/-- One poll cycle of the environment: the time at which the query runs and
the transport outcome of the send attempted for each item id this cycle. -/
abbrev Cycle := Nat × (Nat → SendOutcome)

/-- Attribute names of the `Reminder` model (src/self2.py lines 156-163). -/
def reminderAttrNames : List String :=
  ["id", "user_id", "chat_id", "message_id", "remind_time", "text", "is_active"]

/-- Embedding of a Python attribute read `rem.<name>` on a `Reminder` row:
an `AttributeError` when the model defines no such attribute. -/
def reminderGetAttr (name : String) : Except String Unit :=
  if reminderAttrNames.contains name then .ok ()
  else .error ("AttributeError: Reminder has no attribute " ++ name)

/-- Outcome of the for loop over the due reminders of one poll cycle
(src/self2.py lines 4252-4282): whether the loop was aborted by an escaping
exception, the ids whose send succeeded (messages actually delivered over
the transport), and the ids whose `is_active = False` update is staged in
the session awaiting commit. -/
structure ReminderWalk where
  aborted : Bool
  sentIds : List Nat
  pendingIds : List Nat
deriving DecidableEq

/-- Walk the due reminders in table order. A successful send delivers the
message and stages the flag update; `Forbidden` stages the flag update
without a delivery; on any other exception the handler at line 4282
formats a log message that reads `rem.chat.id`, and since `Reminder` has
no `chat` attribute this read raises `AttributeError` inside the handler,
which escapes the for loop: later rows are never attempted. Were the
attribute present, the log would succeed and the loop would continue with
the row left untouched. -/
def reminderLoopWalk (out : Nat → SendOutcome) : List Reminder → ReminderWalk
  | [] => ⟨false, [], []⟩
  | r :: rest =>
    match out r.id with
    | .success =>
      let w := reminderLoopWalk out rest
      ⟨w.aborted, r.id :: w.sentIds, r.id :: w.pendingIds⟩
    | .forbidden =>
      let w := reminderLoopWalk out rest
      ⟨w.aborted, w.sentIds, r.id :: w.pendingIds⟩
    | .transient =>
      match reminderGetAttr "chat" with
      | .ok _ =>
        let w := reminderLoopWalk out rest
        ⟨w.aborted, w.sentIds, w.pendingIds⟩
      | .error _ => ⟨true, [], []⟩

/-- One iteration of `reminder_task` over the whole table (src/self2.py
lines 4239-4286): query the due rows, walk them in order, and reach
`session.commit()` (line 4284) only when the walk was not aborted. An
aborted walk falls through to the outer handler (line 4285) and the
session closes uncommitted, rolling back every update staged during the
cycle, so the table is unchanged. Returns the table after the cycle and
the ids delivered during it. -/
def reminder_task_cycle (now : Nat) (out : Nat → SendOutcome) (tbl : List Reminder) :
    List Reminder × List Nat :=
  let walk := reminderLoopWalk out (tbl.filter (reminderDue now))
  if walk.aborted then (tbl, walk.sentIds)
  else
    (tbl.map (fun r =>
      if walk.pendingIds.contains r.id then { r with is_active := false } else r),
      walk.sentIds)

/-- Iterating `reminder_task` over a list of poll cycles, collecting every
id delivered along the way. -/
def runReminderCycles : List Cycle → List Reminder → List Reminder × List Nat
  | [], tbl => (tbl, [])
  | c :: rest, tbl =>
    let step := reminder_task_cycle c.1 c.2 tbl
    let next := runReminderCycles rest step.1
    (next.1, step.2 ++ next.2)

/-- One iteration of `scheduled_message_task` over the whole table. -/
def scheduled_message_task_cycle (c : Cycle) (tbl : List ScheduledMessage) :
    List ScheduledMessage :=
  tbl.map (fun m => if scheduledDue c.1 m then scheduledDeliver (c.2 m.id) m else m)

/-- Iterating `scheduled_message_task` over a list of poll cycles. -/
def runScheduledCycles (cycles : List Cycle) (tbl : List ScheduledMessage) :
    List ScheduledMessage :=
  cycles.foldl (fun t c => scheduled_message_task_cycle c t) tbl

/-- Evolution of a single scheduled-message row across poll cycles. -/
def scheduledRunOne (cycles : List Cycle) (m : ScheduledMessage) : ScheduledMessage :=
  cycles.foldl (fun m c => if scheduledDue c.1 m then scheduledDeliver (c.2 m.id) m else m) m

/-- Number of send attempts a single scheduled-message row receives across
the given poll cycles. -/
def scheduledSendCount (cycles : List Cycle) (m : ScheduledMessage) : Nat :=
  match cycles with
  | [] => 0
  | c :: rest =>
    (if scheduledDue c.1 m then 1 else 0) +
      scheduledSendCount rest (if scheduledDue c.1 m then scheduledDeliver (c.2 m.id) m else m)

/-! ### Ban and mute argument classification (src/self2.py lines 2580-2604 and 2715-2737) -/

/-- Python value that is either a string or a list of strings; used to model
the dynamic typing of `possible_duration_str` in the ban/mute handlers. -/
inductive PyStrOrList
  | pystr (s : String)
  | pylist (xs : List String)
deriving DecidableEq

/-- Embedding of a Python `.lower()` attribute call: defined on a string,
and an `AttributeError` on a list. -/
def pyLower : PyStrOrList → Except String PyStrOrList
  | .pystr s => .ok (.pystr (String.mk (s.data.map Char.toLower)))
  | .pylist _ => .error "AttributeError: list object has no attribute lower"

/-- Embedding of `re.fullmatch` for the pattern `\d+[smhd]`: a non-empty
digit run followed by exactly one unit letter. -/
def fullmatchDurTok : PyStrOrList → Bool
  | .pystr s =>
    match s.data.reverse with
    | u :: ds =>
      (u = 's' ∨ u = 'm' ∨ u = 'h' ∨ u = 'd') && !ds.isEmpty && ds.all Char.isDigit
    | [] => false
  | .pylist _ => false

/-- Embedding of the duration/reason argument classification of
`ban_command_handler` (src/self2.py lines 2580-2595), evaluated on
`args = message.command`. The source assigns the whole list `args` (not
`args[2]`) to `possible_duration_str` and immediately calls `.lower()` on
it, which for a list raises `AttributeError`; the classification therefore
errors out whenever extra arguments are present. On the no-extra-arguments
path it returns no duration and an empty reason list. -/
def ban_classify_args (args : List String) : Except String (Option String × List String) :=
  if args.length > 2 then
    let possible_duration_str : PyStrOrList := .pylist args
    match pyLower possible_duration_str with
    | .error e => .error e
    | .ok lowered =>
      if fullmatchDurTok lowered then
        .ok (some (args.getD 2 ""), args.drop 3)
      else
        .ok (none, args.drop 2)
  else .ok (none, [])

/-- Embedding of the identical duration/reason classification of
`mute_command_handler` (src/self2.py lines 2715-2728). -/
def mute_classify_args (args : List String) : Except String (Option String × List String) :=
  if args.length > 2 then
    let possible_duration_str : PyStrOrList := .pylist args
    match pyLower possible_duration_str with
    | .error e => .error e
    | .ok lowered =>
      if fullmatchDurTok lowered then
        .ok (some (args.getD 2 ""), args.drop 3)
      else
        .ok (none, args.drop 2)
  else .ok (none, [])

/-! ### Purge (src/self2.py lines 640-693; src/self.py lines 342-401) -/

/-- Numeric value of a digit run. -/
def digitsVal (ds : List Char) : Nat :=
  ds.foldl (fun a c => a * 10 + (c.toNat - 48)) 0

/-- Embedding of the Python `int()` builtin on a string: optional surrounding
spaces, an optional sign, then a non-empty digit run; anything else raises
`ValueError`, modelled as `none`. -/
def pyIntParse (s : String) : Option Int :=
  let t := ((s.data.dropWhile (fun c => c = ' ')).reverse.dropWhile (fun c => c = ' ')).reverse
  match t with
  | [] => none
  | '-' :: ds =>
    if !ds.isEmpty && ds.all Char.isDigit then some (-(Int.ofNat (digitsVal ds))) else none
  | '+' :: ds =>
    if !ds.isEmpty && ds.all Char.isDigit then some (Int.ofNat (digitsVal ds)) else none
  | ds =>
    if ds.all Char.isDigit then some (Int.ofNat (digitsVal ds)) else none

/-- Count argument of the purge handlers: absent means 1, otherwise the
Python `int()` parse of the argument. -/
def parseCountArg (arg : Option String) : Option Int :=
  match arg with
  | none => some 1
  | some s => pyIntParse s

/-- Result of the purge command: the usage rejections (which delete nothing),
or the list of message ids passed to `delete_messages`. -/
inductive PurgeResult
  | needReply
  | badCount
  | deleted (ids : List Nat)
deriving DecidableEq

/-- Model of the transport history iterator
`iter_messages(chat, offset_id, limit)` as both sources use it: it yields
`limit` message ids descending from `offset_id` inclusive (both handlers
comment that the scan starts at the given id and walks towards older
messages), over a chat whose history around the replied-to message is
contiguous, exactly the scenario the claim quantifies over. -/
def iter_messages (offset_id limit : Nat) : List Nat :=
  (List.range limit).map (fun i => offset_id - i)

/-- Embedding of the collection loop of src/self2.py lines 671-674: append
each yielded id to the accumulator and break once the accumulator exceeds
`count` entries. -/
def purgeCollect (count : Nat) : List Nat → List Nat → List Nat
  | acc, [] => acc
  | acc, m :: ms =>
    let acc2 := acc ++ [m]
    if count < acc2.length then acc2 else purgeCollect count acc2 ms

/-- Embedding of the collection loop of src/self.py lines 376-379, whose
break condition is `len >= count` instead. -/
def purgeCollectV1 (count : Nat) : List Nat → List Nat → List Nat
  | acc, [] => acc
  | acc, m :: ms =>
    let acc2 := acc ++ [m]
    if count ≤ acc2.length then acc2 else purgeCollectV1 count acc2 ms

/-- Embedding of Python `sorted(list(set(xs)))` on message ids. -/
def sortedSet (xs : List Nat) : List Nat :=
  xs.dedup.insertionSort (fun a b => a ≤ b)

/-- Embedding of `purge_command_handler` (src/self2.py lines 640-693):
require a replied-to message; parse the count argument (default 1, rejecting
a non-integer or a value below one); seed the deletion list with the command
message id; walk the history from the replied-to message collecting `count`
ids; and delete the deduplicated, sorted result. -/
def purge_command_handler (cmdId : Nat) (replyTo : Option Nat) (arg : Option String) :
    PurgeResult :=
  match replyTo with
  | none => .needReply
  | some target =>
    match parseCountArg arg with
    | none => .badCount
    | some k =>
      if k ≤ 0 then .badCount
      else
        let count := k.toNat
        let collected := purgeCollect count [cmdId] (iter_messages target count)
        .deleted (sortedSet collected)

/-- Embedding of the src/self.py purge handler (lines 342-401): same
validation; the deletion list is the command message plus the replied-to
message plus `count - 1` older ids collected from the history. -/
def purge_command_handler_v1 (cmdId : Nat) (replyTo : Option Nat) (arg : Option String) :
    PurgeResult :=
  match replyTo with
  | none => .needReply
  | some target =>
    match parseCountArg arg with
    | none => .badCount
    | some k =>
      if k ≤ 0 then .badCount
      else
        let count := k.toNat
        let current := purgeCollectV1 count [target] (iter_messages (target - 1) (count - 1))
        .deleted (sortedSet (cmdId :: current))

/-! ### Calc (src/self2.py lines 600-635; src/self.py lines 317-337) -/

/-- Character allow-list of the calc sanitizer: the regex classes
`[^0-9+\-*/().\s]` (src/self2.py line 614) and `[^-+*/().\d\s]`
(src/self.py line 327) both keep exactly digits, the seven expression
characters and whitespace. The `\s` class is modelled over its ASCII
members; the claims only involve ASCII input. -/
def allowedCalcChar (c : Char) : Bool :=
  c.isDigit || c = '+' || c = '-' || c = '*' || c = '/' || c = '(' || c = ')' || c = '.' ||
    c = ' ' || c = '\t' || c = '\n' || c = '\r' || c = '\x0b' || c = '\x0c'

/-- Embedding of the sanitization step `re.sub(disallowed, '', expression)`:
delete every character outside the allow-list. -/
def calc_sanitize (s : String) : String :=
  String.mk (s.data.filter allowedCalcChar)

/-- Tokens of the sanitized arithmetic language. -/
inductive CalcTok
  | num (n : Nat)
  | plus
  | minus
  | star
  | lparen
  | rparen
deriving DecidableEq

/-- Lexer for the model of Python `eval` on sanitized input: digit runs
become integer literals, the operators and parentheses become tokens, and
whitespace is skipped. Divisions and decimal points would leave integer
arithmetic (Python evaluates them in floating point), so they fall outside
the model and lex to `none`; the claims only evaluate `+` and `*`. -/
def calcLexAux : List Char → Option Nat → Option (List CalcTok)
  | [], acc =>
    some (match acc with | some n => [.num n] | none => [])
  | c :: cs, acc =>
    let flush : List CalcTok → List CalcTok := fun ts =>
      match acc with | some n => .num n :: ts | none => ts
    if c.isDigit then calcLexAux cs (some ((acc.getD 0) * 10 + (c.toNat - 48)))
    else if c = '+' then (calcLexAux cs none).map (fun ts => flush (.plus :: ts))
    else if c = '-' then (calcLexAux cs none).map (fun ts => flush (.minus :: ts))
    else if c = '*' then (calcLexAux cs none).map (fun ts => flush (.star :: ts))
    else if c = '(' then (calcLexAux cs none).map (fun ts => flush (.lparen :: ts))
    else if c = ')' then (calcLexAux cs none).map (fun ts => flush (.rparen :: ts))
    else if c = ' ' ∨ c = '\t' ∨ c = '\n' ∨ c = '\r' ∨ c = '\x0b' ∨ c = '\x0c' then
      (calcLexAux cs none).map flush
    else none

mutual

/-- Fuel-indexed recursive-descent evaluator with Python precedence:
additive expressions over multiplicative terms over atomic factors
(numbers, parenthesized expressions, unary signs). -/
def parseFactor : Nat → List CalcTok → Option (Int × List CalcTok)
  | 0, _ => none
  | fuel + 1, ts =>
    match ts with
    | .num n :: ts1 => some (Int.ofNat n, ts1)
    | .minus :: ts1 => (parseFactor fuel ts1).map (fun p => (-p.1, p.2))
    | .plus :: ts1 => parseFactor fuel ts1
    | .lparen :: ts1 =>
      match parseExprFuel fuel ts1 with
      | some (v, .rparen :: ts2) => some (v, ts2)
      | _ => none
    | _ => none

/-- Multiplicative-level parse: a factor followed by further `*` factors. -/
def parseTermAux : Nat → Int → List CalcTok → Option (Int × List CalcTok)
  | 0, _, _ => none
  | fuel + 1, v, ts =>
    match ts with
    | .star :: ts1 =>
      match parseFactor fuel ts1 with
      | some (w, ts2) => parseTermAux fuel (v * w) ts2
      | none => none
    | _ => some (v, ts)

/-- Multiplicative-level parse entry. -/
def parseTerm : Nat → List CalcTok → Option (Int × List CalcTok)
  | 0, _ => none
  | fuel + 1, ts =>
    match parseFactor fuel ts with
    | some (v, ts1) => parseTermAux fuel v ts1
    | none => none

/-- Additive-level parse: a term followed by further `+`/`-` terms. -/
def parseExprAux : Nat → Int → List CalcTok → Option (Int × List CalcTok)
  | 0, _, _ => none
  | fuel + 1, v, ts =>
    match ts with
    | .plus :: ts1 =>
      match parseTerm fuel ts1 with
      | some (w, ts2) => parseExprAux fuel (v + w) ts2
      | none => none
    | .minus :: ts1 =>
      match parseTerm fuel ts1 with
      | some (w, ts2) => parseExprAux fuel (v - w) ts2
      | none => none
    | _ => some (v, ts)

/-- Additive-level parse entry. -/
def parseExprFuel : Nat → List CalcTok → Option (Int × List CalcTok)
  | 0, _ => none
  | fuel + 1, ts =>
    match parseTerm fuel ts with
    | some (v, ts1) => parseExprAux fuel v ts1
    | none => none

end

/-- Model of the Python `eval` call on a sanitized expression: lex, then
parse a complete expression; any leftover tokens are a `SyntaxError`. -/
def pyEvalArith (s : String) : Option Int :=
  match calcLexAux s.data none with
  | none => none
  | some ts =>
    match parseExprFuel (3 * ts.length + 4) ts with
    | some (v, []) => some v
    | _ => none

/-- Replies of the calc command. -/
inductive CalcReply
  | usageHint
  | invalidExpr
  | result (sanitized : String) (value : Int)
  | evalError
deriving DecidableEq

/-- Embedding of `calc_command_handler` (src/self2.py lines 600-635): reject
a missing argument with a usage hint, sanitize, reject an empty sanitized
string, evaluate, and reply with the value or with the caught error. -/
def calc_command_handler (arg : Option String) : CalcReply :=
  match arg with
  | none => .usageHint
  | some expression =>
    let sanitized := calc_sanitize expression
    if sanitized = "" then .invalidExpr
    else
      match pyEvalArith sanitized with
      | some v => .result sanitized v
      | none => .evalError

/-! ### Permission gate (src/self2.py lines 324-366) -/

/-- Kind of the conversation, as tested by
`message.chat.type in ["group", "supergroup"]`. -/
inductive ChatKind
  | privateChat
  | basicGroup
  | superGroup
  | channel
deriving DecidableEq

/-- Membership record returned by `get_chat_member` for the acting account:
the set of capability attribute names that read as true. `getattr` with a
`False` default makes every absent attribute read as not granted. -/
structure MemberInfo where
  grantedPerms : List String
deriving DecidableEq

/-- Embedding of `getattr(me_member, perm, False)`. -/
def getattrPerm (m : MemberInfo) (perm : String) : Bool :=
  m.grantedPerms.contains perm

/-- Failure of the capability query itself: `ChatAdminRequired` (the account
is not an admin) or any other exception. -/
inductive AdminQueryError
  | chatAdminRequired
  | otherError (msg : String)
deriving DecidableEq

/-- Environment the gate consults: the conversation kind and the result of
the capability query for the acting account. -/
structure GateCtx where
  chatKind : ChatKind
  memberQuery : Except AdminQueryError MemberInfo

/-- The one reply the gate sends on each failure path. -/
inductive GateReply
  | groupOnly
  | missingRights (rights : List String)
  | needAdminStatus
  | rightsCheckError (msg : String)
deriving DecidableEq

/-- Truthiness of `me_member.status.ADMINISTRATOR` (src/self2.py line 338):
attribute access on an enum member yields the enum class member, which is
always truthy in Python, so the `'admin'` branch never flags a missing
right. -/
def statusAdminAttrTruthy : Bool := true

/-- Fuel-indexed worker for `replaceAllList`; every step consumes at least
one character and one unit of fuel, so fuel equal to the input length is
always sufficient. -/
def replaceAllAux (p0 : Char) (prest repl : List Char) : Nat → List Char → List Char
  | 0, cs => cs
  | _ + 1, [] => []
  | fuel + 1, c :: cs =>
    if c = p0 ∧ cs.take prest.length = prest then
      repl ++ replaceAllAux p0 prest repl fuel (cs.drop prest.length)
    else c :: replaceAllAux p0 prest repl fuel cs

/-- Replace every occurrence of the non-empty pattern `p0 :: prest` by
`repl`, the model of `str.replace(pat, repl)` for the literal patterns the
gate uses. -/
def replaceAllList (p0 : Char) (prest repl : List Char) (cs : List Char) : List Char :=
  replaceAllAux p0 prest repl cs.length cs

/-- Model of Python `str.title()`: uppercase each letter that follows a
non-letter, lowercase the rest. -/
def pyTitleAux : List Char → Bool → List Char
  | [], _ => []
  | c :: cs, prevAlpha =>
    (if c.isAlpha then (if prevAlpha then c.toLower else c.toUpper) else c) ::
      pyTitleAux cs c.isAlpha

/-- Human-readable capability name:
`perm.replace("can_", "").replace("_", " ").title()` (src/self2.py line 341). -/
def humanizePerm (perm : String) : String :=
  String.mk (pyTitleAux (replaceAllList '_' [] [' ']
    (replaceAllList 'c' ['a', 'n', '_'] [] perm.data)) false)

/-- Embedding of the missing-capability loop (src/self2.py lines 335-341). -/
def missing_perms (m : MemberInfo) (permissions : List String) : List String :=
  permissions.filterMap (fun perm =>
    if perm = "admin" then
      if statusAdminAttrTruthy then none else some "Administrator"
    else if getattrPerm m perm then none else some (humanizePerm perm))

/-- Embedding of the `require_admin_rights` wrapper body (src/self2.py lines
324-366): the replies it sends and whether it falls through to the wrapped
handler. Group-only check first; then the capability query, whose
`ChatAdminRequired` failure and other failures each produce their reply;
then the missing-capability reply; the handler runs only when every check
passes. -/
def require_admin_rights (permissions : List String) (ctx : GateCtx) :
    List GateReply × Bool :=
  if ctx.chatKind = .basicGroup ∨ ctx.chatKind = .superGroup then
    match ctx.memberQuery with
    | .ok m =>
      let miss := missing_perms m permissions
      if miss ≠ [] then ([.missingRights miss], false) else ([], true)
    | .error .chatAdminRequired => ([.needAdminStatus], false)
    | .error (.otherError e) => ([.rightsCheckError e], false)
  else ([.groupOnly], false)

/-- The gate composed with a wrapped handler, as the decorator returns it:
on success the handler runs on the unchanged message, otherwise it does not
run at all. -/
def require_admin_rights_wrap {α β : Type} (permissions : List String) (ctx : GateCtx)
    (handler : α → β) (msg : α) : List GateReply × Option β :=
  let gate := require_admin_rights permissions ctx
  (gate.1, if gate.2 then some (handler msg) else none)

/-! ### Base64 encode/decode (src/self2.py lines 1355-1395) -/

/-- Alphabet of standard Base64. -/
def b64Alphabet : List Char :=
  ['A', 'B', 'C', 'D', 'E', 'F', 'G', 'H', 'I', 'J', 'K', 'L', 'M',
   'N', 'O', 'P', 'Q', 'R', 'S', 'T', 'U', 'V', 'W', 'X', 'Y', 'Z',
   'a', 'b', 'c', 'd', 'e', 'f', 'g', 'h', 'i', 'j', 'k', 'l', 'm',
   'n', 'o', 'p', 'q', 'r', 's', 't', 'u', 'v', 'w', 'x', 'y', 'z',
   '0', '1', '2', '3', '4', '5', '6', '7', '8', '9', '+', '/']

/-- Character for a sextet value. -/
def b64Char (i : Nat) : Char :=
  (b64Alphabet.getD i 'A')

/-- Sextet value of an alphabet character, `none` outside the alphabet. -/
def b64Val (c : Char) : Option Nat :=
  b64Alphabet.findIdx? (fun a => a == c)

/-- Standard Base64 encoding of a byte list (the behaviour of
`base64.b64encode`): three bytes become four alphabet characters, a final
group of one or two bytes is padded with `=`. -/
def b64EncodeBytes : List Nat → List Char
  | [] => []
  | [a] => [b64Char (a / 4), b64Char (a % 4 * 16), '=', '=']
  | [a, b] => [b64Char (a / 4), b64Char (a % 4 * 16 + b / 16), b64Char (b % 16 * 4), '=']
  | a :: b :: c :: rest =>
    b64Char (a / 4) :: b64Char (a % 4 * 16 + b / 16) :: b64Char (b % 16 * 4 + c / 64) ::
      b64Char (c % 64) :: b64EncodeBytes rest

/-- Standard Base64 decoding of a character list (the behaviour of
`base64.b64decode` on well-formed input): four characters at a time, with
the two padded final forms. -/
def b64DecodeChars : List Char → Option (List Nat)
  | [] => some []
  | c1 :: c2 :: c3 :: c4 :: rest =>
    match b64Val c1, b64Val c2 with
    | some i1, some i2 =>
      if c3 = '=' then
        if c4 = '=' ∧ rest = [] then some [i1 * 4 + i2 / 16] else none
      else
        match b64Val c3 with
        | some i3 =>
          if c4 = '=' then
            if rest = [] then some [i1 * 4 + i2 / 16, i2 % 16 * 16 + i3 / 4] else none
          else
            match b64Val c4 with
            | some i4 =>
              (b64DecodeChars rest).map (fun bs =>
                (i1 * 4 + i2 / 16) :: (i2 % 16 * 16 + i3 / 4) :: (i3 % 4 * 64 + i4) :: bs)
            | none => none
        | none => none
    | _, _ => none
  | _ => none

/-- UTF-8 encoding of one scalar value (the behaviour of `str.encode` per
character): one to four bytes by code-point range. -/
def utf8EncodeChar (c : Char) : List Nat :=
  let n := c.toNat
  if n < 0x80 then [n]
  else if n < 0x800 then [0xC0 + n / 64, 0x80 + n % 64]
  else if n < 0x10000 then [0xE0 + n / 4096, 0x80 + n / 64 % 64, 0x80 + n % 64]
  else [0xF0 + n / 262144, 0x80 + n / 4096 % 64, 0x80 + n / 64 % 64, 0x80 + n % 64]

/-- UTF-8 encoding of a string, the model of `text.encode("utf-8")`. Python
strings that can be UTF-8 encoded are exactly the sequences of Unicode
scalar values, which is the Lean `String` type. -/
def utf8Encode (s : String) : List Nat :=
  (s.data.map utf8EncodeChar).flatten

/-- Incremental UTF-8 decoder state step (the behaviour of
`bytes.decode("utf-8")`): `need` counts the continuation bytes still
expected, `val` accumulates the scalar value and `minv` is the smallest
scalar value legal for the current sequence length, so that overlong
encodings are rejected; surrogate values and values above 0x10FFFF are
rejected when the sequence completes, and every continuation byte must lie
in `0x80..0xBF`. -/
def utf8DecState : List Nat → Nat → Nat → Nat → Option (List Char)
  | [], 0, _, _ => some []
  | [], _ + 1, _, _ => none
  | b :: bs, 0, _, _ =>
    if b < 0x80 then (utf8DecState bs 0 0 0).map (fun cs => Char.ofNat b :: cs)
    else if b < 0xC0 then none
    else if b < 0xE0 then utf8DecState bs 1 (b - 0xC0) 0x80
    else if b < 0xF0 then utf8DecState bs 2 (b - 0xE0) 0x800
    else if b < 0xF8 then utf8DecState bs 3 (b - 0xF0) 0x10000
    else none
  | b :: bs, 1, val, minv =>
    if 0x80 ≤ b ∧ b < 0xC0 then
      if minv ≤ val * 64 + (b - 0x80) ∧ val * 64 + (b - 0x80) < 0x110000 ∧
          ¬(0xD800 ≤ val * 64 + (b - 0x80) ∧ val * 64 + (b - 0x80) < 0xE000) then
        (utf8DecState bs 0 0 0).map (fun cs => Char.ofNat (val * 64 + (b - 0x80)) :: cs)
      else none
    else none
  | b :: bs, need + 2, val, minv =>
    if 0x80 ≤ b ∧ b < 0xC0 then utf8DecState bs (need + 1) (val * 64 + (b - 0x80)) minv
    else none

/-- UTF-8 decoding of a byte list, the model of `bytes.decode("utf-8")`. -/
def utf8Decode (bs : List Nat) : Option (List Char) :=
  utf8DecState bs 0 0 0

/-- Core of `base64_encode_handler` (src/self2.py lines 1355-1374):
`base64.b64encode(text.encode("utf-8")).decode("utf-8")`. -/
def base64_encode_handler (text : String) : String :=
  String.mk (b64EncodeBytes (utf8Encode text))

/-- Core of `base64_decode_handler` (src/self2.py lines 1376-1395):
`base64.b64decode(text.encode("utf-8")).decode("utf-8")`; a malformed input
raises and is reported as an error, modelled by `none`. -/
def base64_decode_handler (text : String) : Option String :=
  (b64DecodeChars text.data).bind (fun bs => (utf8Decode bs).map String.mk)

/-! ## Theorems -/

/-- C10: for every input string, `parse_time_duration` returns either no
duration or a strictly positive number of seconds; strings whose recognized
components sum to zero seconds, such as "0s" and "0h0m", are rejected
exactly like the unit-free string "abc". -/
theorem parse_time_duration_positive :
    (∀ s d, parse_time_duration s = some d → 0 < d) ∧
    parse_time_duration "0s" = none ∧
    parse_time_duration "0h0m" = none ∧
    parse_time_duration "abc" = none := by
  refine ⟨?_, by decide, by decide, by decide⟩
  intro s d h
  unfold parse_time_duration at h
  dsimp only at h
  split at h
  · exact absurd h (by simp)
  · split at h
    · exact absurd h (by simp)
    · next hz =>
      obtain rfl : _ = d := Option.some.inj h
      omega

/-- Witness for C10 at the concrete input "1m". -/
theorem parse_time_duration_positive_witness :
    parse_time_duration "1m" = some 60 ∧ 0 < 60 :=
  ⟨by decide, parse_time_duration_positive.1 "1m" 60 (by decide)⟩

/-- C5: `parse_time_duration` maps "1h30m" to 5400 seconds and "2d" to
172800 seconds and rejects "abc"; but in the ban and mute handlers the
argument-classification code crashes with `AttributeError` whenever extra
arguments are present, because it calls `.lower()` on the whole `args`
list, so the handlers never reach the documented
permanent-action-with-reason path. -/
theorem ban_mute_args_attribute_error :
    parse_time_duration "1h30m" = some 5400 ∧
    parse_time_duration "2d" = some 172800 ∧
    parse_time_duration "abc" = none ∧
    ban_classify_args ["ban", "123456", "abc"] =
      .error "AttributeError: list object has no attribute lower" ∧
    mute_classify_args ["mute", "123456", "abc"] =
      .error "AttributeError: list object has no attribute lower" :=
  ⟨by decide, by decide, by decide, rfl, rfl⟩

/-- C7 as stated is false: the sanitizer keeps whitespace, so the sanitized
form of "2+2*3; import os" carries two residual spaces and is not the
string "2+2*3". -/
theorem calc_sanitize_counterexample :
    calc_sanitize "2+2*3; import os" ≠ "2+2*3" ∧
    calc_sanitize "2+2*3; import os" = "2+2*3  " := by
  exact ⟨by decide, by decide⟩

/-- C7 amended: the input "2+2*3; import os" is sanitized to "2+2*3  "
(the disallowed characters are deleted, the allow-listed spaces survive),
the handler evaluates it to the result 8, and for every input every
character surviving sanitization lies in the allow-list, so the disallowed
suffix is dropped before evaluation and never executed. -/
theorem calc_sanitize_amended :
    calc_sanitize "2+2*3; import os" = "2+2*3  " ∧
    calc_command_handler (some "2+2*3; import os") = .result "2+2*3  " 8 ∧
    (∀ s, ((calc_sanitize s).data.all allowedCalcChar) = true) := by
  refine ⟨by decide, by decide, ?_⟩
  intro s
  simp only [calc_sanitize, List.all_eq_true]
  intro c hc
  exact (List.mem_filter.mp hc).2

/-- C3: the AFK toggle preserves the state invariant (Inactive implies
reason, start time and cooldown map cleared), the invariant also survives
the reply listener, both toggle directions clear the cooldown map, and an
Active to Inactive to Active cycle ends Active with an empty map. -/
theorem afk_toggle_state_clear :
    AfkInv AFK_STATUS_init ∧
    (∀ now arg st, AfkInv (afk_command_handler now arg st)) ∧
    (∀ owner now msg st, AfkInv st → AfkInv (afk_reply_handler owner now msg st).1) ∧
    (∀ now arg st, (afk_command_handler now arg st).last_afk_message_time = []) ∧
    (∀ st now1 arg1 now2 arg2, st.is_afk = true →
      (afk_command_handler now1 arg1 st).is_afk = false ∧
      (afk_command_handler now2 arg2 (afk_command_handler now1 arg1 st)).is_afk = true ∧
      (afk_command_handler now2 arg2 (afk_command_handler now1 arg1 st)).last_afk_message_time
        = []) := by
  refine ⟨by decide, ?_, ?_, ?_, ?_⟩
  · intro now arg st
    unfold AfkInv afk_command_handler
    split <;> simp
  · intro owner now msg st h
    rcases hs : st.is_afk with _ | _
    · have : afk_reply_handler owner now msg st = (st, false) := by
        unfold afk_reply_handler
        simp [hs]
      rw [this]
      exact h
    · intro hfalse
      have hsame : (afk_reply_handler owner now msg st).1.is_afk = st.is_afk := by
        unfold afk_reply_handler
        repeat' split
        all_goals rfl
      rw [hsame, hs] at hfalse
      cases hfalse
  · intro now arg st
    unfold afk_command_handler
    split <;> rfl
  · intro st now1 arg1 now2 arg2 h
    unfold afk_command_handler
    simp [h]

/-- Witness for C3: the invariant after a concrete listener step from the
initial state, and the empty map after a concrete Active-Inactive-Active
cycle. -/
theorem afk_toggle_state_clear_witness :
    AfkInv (afk_reply_handler 1 50 ⟨2, false, true, false⟩ AFK_STATUS_init).1 ∧
    AfkStatus.last_afk_message_time
      (afk_command_handler 9 none
        (afk_command_handler 3 (some "busy") ⟨true, some "x", some 2, [(7, 1)]⟩)) = [] :=
  ⟨afk_toggle_state_clear.2.2.1 1 50 ⟨2, false, true, false⟩ AFK_STATUS_init (by decide),
   (afk_toggle_state_clear.2.2.2.2 ⟨true, some "x", some 2, [(7, 1)]⟩ 3 (some "busy") 9 none
     (by decide)).2.2⟩

/-- C8: the permission gate sends exactly one reply and skips the handler on
every failure path, sends nothing on success, and on success delegates to
the wrapped handler on the unchanged message; success holds exactly when
the conversation is a group, the capability query succeeds and no required
capability is missing. The gate reads only the context it is given and is a
pure function, so it mutates no state. -/
theorem require_admin_rights_gate_contract :
    (∀ perms ctx,
      ((require_admin_rights perms ctx).2 = true ∧ (require_admin_rights perms ctx).1 = []) ∨
      ((require_admin_rights perms ctx).2 = false ∧
        (require_admin_rights perms ctx).1.length = 1)) ∧
    (∀ perms ctx, (require_admin_rights perms ctx).2 = true ↔
      ((ctx.chatKind = .basicGroup ∨ ctx.chatKind = .superGroup) ∧
        ∃ m, ctx.memberQuery = .ok m ∧ missing_perms m perms = [])) ∧
    (∀ (α β : Type) (perms : List String) (ctx : GateCtx) (handler : α → β) (msg : α),
      ((require_admin_rights perms ctx).2 = true →
        require_admin_rights_wrap perms ctx handler msg = ([], some (handler msg))) ∧
      ((require_admin_rights perms ctx).2 = false →
        (require_admin_rights_wrap perms ctx handler msg).1.length = 1 ∧
        (require_admin_rights_wrap perms ctx handler msg).2 = none)) := by
  have hshape : ∀ perms ctx,
      ((require_admin_rights perms ctx).2 = true ∧ (require_admin_rights perms ctx).1 = []) ∨
      ((require_admin_rights perms ctx).2 = false ∧
        (require_admin_rights perms ctx).1.length = 1) := by
    intro perms ctx
    rcases ctx with ⟨ck, mq⟩
    by_cases hck : (ck = ChatKind.basicGroup ∨ ck = ChatKind.superGroup)
    · rcases mq with e | m
      · rcases e with _ | e <;> simp [require_admin_rights, hck]
      · by_cases hm : missing_perms m perms = [] <;> simp [require_admin_rights, hck, hm]
    · simp [require_admin_rights, hck]
  refine ⟨hshape, ?_, ?_⟩
  · intro perms ctx
    rcases ctx with ⟨ck, mq⟩
    by_cases hck : (ck = ChatKind.basicGroup ∨ ck = ChatKind.superGroup)
    · rcases mq with e | m
      · rcases e with _ | e <;> simp [require_admin_rights, hck]
      · by_cases hm : missing_perms m perms = [] <;> simp [require_admin_rights, hck, hm]
    · simp [require_admin_rights, hck]
  · intro α β perms ctx handler msg
    constructor
    · intro h
      rcases hshape perms ctx with ⟨_, hr⟩ | ⟨hf, _⟩
      · simp [require_admin_rights_wrap, h, hr]
      · rw [h] at hf
        cases hf
    · intro h
      rcases hshape perms ctx with ⟨ht, _⟩ | ⟨_, hr⟩
      · rw [h] at ht
        cases ht
      · simp [require_admin_rights_wrap, h, hr]

/-- Witness for C8: a concrete successful delegation through the gate. -/
theorem require_admin_rights_gate_contract_witness :
    require_admin_rights_wrap ["can_delete_messages"]
      ⟨.superGroup, .ok ⟨["can_delete_messages"]⟩⟩ (fun n : Nat => n + 1) 41 =
      ([], some 42) :=
  (require_admin_rights_gate_contract.2.2 Nat Nat ["can_delete_messages"]
    ⟨.superGroup, .ok ⟨["can_delete_messages"]⟩⟩ (fun n => n + 1) 41).1 (by decide)

/-- Lookup after a cooldown-map write at the same key. -/
theorem lookupTime_setTime_self (m : List (Nat × Nat)) (u : Nat) (t : Nat) :
    lookupTime (setTime m u t) u = some t := by
  simp [lookupTime, setTime, List.find?_cons]

/-- The AFK listener never changes the AFK flag. -/
theorem afk_reply_handler_keeps_is_afk (owner : Nat) (now : Nat) (msg : InboundMsg)
    (st : AfkStatus) : (afk_reply_handler owner now msg st).1.is_afk = st.is_afk := by
  unfold afk_reply_handler
  repeat' split
  all_goals rfl

/-- A qualifying message whose sender is inside the cooldown window is
dropped without a reply and without touching the state. -/
theorem afk_reply_handler_in_cooldown (owner : Nat) (now : Nat) (msg : InboundMsg)
    (st : AfkStatus) (hafk : st.is_afk = true) (hbot : msg.is_bot = false)
    (hC : msg.from_id ≠ owner) (t : Nat)
    (hlook : lookupTime st.last_afk_message_time msg.from_id = some t)
    (hwin : now < t + AFK_MESSAGE_COOLDOWN) :
    afk_reply_handler owner now msg st = (st, false) := by
  have hcool : now - t < AFK_MESSAGE_COOLDOWN := by
    unfold AFK_MESSAGE_COOLDOWN at hwin ⊢
    omega
  have hguard : (st.is_afk && !msg.is_bot) = true := by rw [hafk, hbot]; rfl
  have hbeq : ¬((msg.from_id == owner) = true) := by
    simp only [beq_iff_eq]
    exact hC
  unfold afk_reply_handler
  rw [if_pos hguard, if_neg hbeq, hlook]
  dsimp only
  rw [if_pos hcool]

/-- A qualifying message from a sender outside the cooldown window (or not
in the map at all) gets exactly one reply and stamps the map. -/
theorem afk_reply_handler_replies (owner : Nat) (now : Nat) (msg : InboundMsg)
    (st : AfkStatus) (hafk : st.is_afk = true) (hbot : msg.is_bot = false)
    (hC : msg.from_id ≠ owner)
    (hout : ∀ t, lookupTime st.last_afk_message_time msg.from_id = some t →
      t + AFK_MESSAGE_COOLDOWN ≤ now) :
    afk_reply_handler owner now msg st =
      ({ st with last_afk_message_time := setTime st.last_afk_message_time msg.from_id now },
        true) := by
  have hguard : (st.is_afk && !msg.is_bot) = true := by rw [hafk, hbot]; rfl
  have hbeq : ¬((msg.from_id == owner) = true) := by
    simp only [beq_iff_eq]
    exact hC
  unfold afk_reply_handler
  rw [if_pos hguard, if_neg hbeq]
  cases hlook : lookupTime st.last_afk_message_time msg.from_id with
  | none => rfl
  | some t =>
    have hcool : ¬(now - t < AFK_MESSAGE_COOLDOWN) := by
      have hle := hout t hlook
      unfold AFK_MESSAGE_COOLDOWN at hle ⊢
      omega
    dsimp only
    rw [if_neg hcool]

/-- A run of qualifying messages all inside the window stamped at `t1`
leaves the state untouched and sends no reply. -/
theorem processAfkMsgs_in_cooldown (owner C t1 : Nat) (msgs : List (Nat × InboundMsg))
    (st : AfkStatus) (hafk : st.is_afk = true)
    (hlook : lookupTime st.last_afk_message_time C = some t1) (hC : C ≠ owner)
    (hall : ∀ p ∈ msgs, (p.2).from_id = C ∧ (p.2).is_bot = false ∧
      p.1 < t1 + AFK_MESSAGE_COOLDOWN) :
    processAfkMsgs owner msgs st = (st, 0) := by
  induction msgs with
  | nil => rfl
  | cons p rest ih =>
    obtain ⟨h1, h2, h3⟩ := hall p (List.mem_cons_self p rest)
    have hstep : afk_reply_handler owner p.1 p.2 st = (st, false) :=
      afk_reply_handler_in_cooldown owner p.1 p.2 st hafk h2 (by rw [h1]; exact hC) t1
        (by rw [h1]; exact hlook) h3
    unfold processAfkMsgs
    rw [hstep]
    dsimp only
    rw [ih (fun q hq => hall q (List.mem_cons_of_mem p hq))]
    rfl

/-- C2: while AFK is Active, a first qualifying message from counterpart C
with no cooldown entry draws a reply; every further qualifying message from
C inside the 60-second window drawn from that first timestamp is dropped,
for a total of exactly one reply; and one more qualifying message after the
window has elapsed draws exactly one more reply. The cooldown check and the
timestamp write happen inside the single step `afk_reply_handler`, which
mirrors the await-free stretch of the source. -/
theorem afk_cooldown_exactly_one_reply (owner C : Nat) (hC : C ≠ owner) (st : AfkStatus)
    (hafk : st.is_afk = true)
    (hfresh : lookupTime st.last_afk_message_time C = none)
    (t1 : Nat) (m1 : InboundMsg)
    (hm1 : m1.from_id = C ∧ m1.is_bot = false ∧ afkListenerFilter owner m1 = true)
    (msgs : List (Nat × InboundMsg))
    (hmsgs : ∀ p ∈ msgs, (p.2).from_id = C ∧ (p.2).is_bot = false ∧
      afkListenerFilter owner (p.2) = true ∧ t1 ≤ p.1 ∧ p.1 < t1 + AFK_MESSAGE_COOLDOWN)
    (t2 : Nat) (m2 : InboundMsg)
    (hm2 : m2.from_id = C ∧ m2.is_bot = false ∧ afkListenerFilter owner m2 = true)
    (ht2 : t1 + AFK_MESSAGE_COOLDOWN ≤ t2) :
    (processAfkMsgs owner ((t1, m1) :: msgs) st).2 = 1 ∧
    (afk_reply_handler owner t2 m2 (processAfkMsgs owner ((t1, m1) :: msgs) st).1).2 =
      true := by
  obtain ⟨h1a, h1b, -⟩ := hm1
  obtain ⟨h2a, h2b, -⟩ := hm2
  have hstep1 : afk_reply_handler owner t1 m1 st =
      ({ st with last_afk_message_time := setTime st.last_afk_message_time m1.from_id t1 },
        true) :=
    afk_reply_handler_replies owner t1 m1 st hafk h1b (by rw [h1a]; exact hC)
      (by rw [h1a, hfresh]; intro t ht; cases ht)
  set st1 : AfkStatus :=
    { st with last_afk_message_time := setTime st.last_afk_message_time m1.from_id t1 }
    with hst1
  have hlook1 : lookupTime st1.last_afk_message_time C = some t1 := by
    rw [hst1]
    dsimp only
    rw [h1a]
    exact lookupTime_setTime_self _ _ _
  have hafk1 : st1.is_afk = true := hafk
  have hrest : processAfkMsgs owner msgs st1 = (st1, 0) :=
    processAfkMsgs_in_cooldown owner C t1 msgs st1 hafk1 hlook1 hC
      (fun p hp => ⟨(hmsgs p hp).1, (hmsgs p hp).2.1, (hmsgs p hp).2.2.2.2⟩)
  have hfold : processAfkMsgs owner ((t1, m1) :: msgs) st = (st1, 1) := by
    unfold processAfkMsgs
    rw [hstep1]
    dsimp only
    rw [hrest]
    rfl
  rw [hfold]
  refine ⟨rfl, ?_⟩
  have := afk_reply_handler_replies owner t2 m2 st1 hafk1 h2b (by rw [h2a]; exact hC)
    (by
      rw [h2a, hlook1]
      intro t ht
      obtain rfl : t1 = t := Option.some.inj ht
      exact ht2)
  rw [this]

/-- Witness for C2: three messages inside one window from counterpart 2 give
one reply, and a later message after the window gives one more. -/
theorem afk_cooldown_exactly_one_reply_witness :
    (processAfkMsgs 1
      ((100, ⟨2, false, true, false⟩) ::
        [(130, ⟨2, false, true, false⟩), (159, ⟨2, false, true, false⟩)])
      ⟨true, some "x", some 0, []⟩).2 = 1 ∧
    (afk_reply_handler 1 160 ⟨2, false, true, false⟩
      (processAfkMsgs 1
        ((100, ⟨2, false, true, false⟩) ::
          [(130, ⟨2, false, true, false⟩), (159, ⟨2, false, true, false⟩)])
        ⟨true, some "x", some 0, []⟩).1).2 = true :=
  afk_cooldown_exactly_one_reply 1 2 (by decide) ⟨true, some "x", some 0, []⟩ (by decide)
    (by decide) 100 ⟨2, false, true, false⟩ (by decide)
    [(130, ⟨2, false, true, false⟩), (159, ⟨2, false, true, false⟩)] (by decide)
    160 ⟨2, false, true, false⟩ (by decide) (by decide)

/-- One cycle of the scheduled-message loop applied to one row. -/
theorem scheduledRunOne_cons (c : Cycle) (rest : List Cycle) (m : ScheduledMessage) :
    scheduledRunOne (c :: rest) m =
      scheduledRunOne rest (if scheduledDue c.1 m then scheduledDeliver (c.2 m.id) m else m) :=
  rfl

/-- The table-level scheduled-message loop acts on each row independently. -/
theorem runScheduledCycles_pointwise (cycles : List Cycle) (tbl : List ScheduledMessage) :
    runScheduledCycles cycles tbl = tbl.map (scheduledRunOne cycles) := by
  induction cycles generalizing tbl with
  | nil =>
    show tbl = tbl.map (scheduledRunOne [])
    rw [show scheduledRunOne ([] : List Cycle) = fun m => m from rfl, List.map_id']
  | cons c rest ih =>
    show runScheduledCycles rest (scheduled_message_task_cycle c tbl) = _
    rw [ih]
    unfold scheduled_message_task_cycle
    rw [List.map_map]
    rfl

/-- A scheduled message with the delivered flag set is inert. -/
theorem scheduled_sent_inert (m : ScheduledMessage) (h : m.is_sent = true) :
    (∀ now, scheduledDue now m = false) ∧
    (∀ cycles, scheduledRunOne cycles m = m ∧ scheduledSendCount cycles m = 0) := by
  have hdue : ∀ now, scheduledDue now m = false := by
    intro now
    simp [scheduledDue, h]
  refine ⟨hdue, ?_⟩
  intro cycles
  induction cycles with
  | nil => exact ⟨rfl, rfl⟩
  | cons c rest ih =>
    have hstep : (if scheduledDue c.1 m then scheduledDeliver (c.2 m.id) m else m) = m := by
      rw [hdue c.1]
      rfl
    constructor
    · rw [scheduledRunOne_cons, hstep]
      exact ih.1
    · unfold scheduledSendCount
      rw [hstep, hdue c.1]
      simpa using ih.2

/-- C1: the reminder loop violates delivered-at-most-once; the claim is the
spec's stated invariant and the code breaks it through a slip in the
transient-failure log line. With reminders 1 and 2 both due in one poll
cycle, a successful send of reminder 1 followed by a transient send
failure of reminder 2 aborts the loop: the except handler at src/self2.py
line 4282 reads the non-existent `chat` attribute, the `AttributeError`
skips `session.commit()`, and reminder 1 keeps `is_active = True` despite
having been delivered, so the next cycle selects reminder 1 and delivers
it a second time. A cycle with no transient failure does commit and clears
the flags, so the double delivery is forced purely by the failing input. -/
theorem reminder_double_delivery_bug :
    reminderGetAttr "chat" = .error "AttributeError: Reminder has no attribute chat" ∧
    reminder_task_cycle 10
        (fun i => if i = 1 then SendOutcome.success else SendOutcome.transient)
        [⟨1, 2, 3, 4, 10, "a", true⟩, ⟨2, 2, 3, 4, 10, "b", true⟩] =
      ([⟨1, 2, 3, 4, 10, "a", true⟩, ⟨2, 2, 3, 4, 10, "b", true⟩], [1]) ∧
    (runReminderCycles
        [(10, fun i => if i = 1 then SendOutcome.success else SendOutcome.transient),
          (40, fun _ => SendOutcome.success)]
        [⟨1, 2, 3, 4, 10, "a", true⟩, ⟨2, 2, 3, 4, 10, "b", true⟩]).2 = [1, 1, 2] ∧
    (runReminderCycles
        [(10, fun i => if i = 1 then SendOutcome.success else SendOutcome.transient),
          (40, fun _ => SendOutcome.success)]
        [⟨1, 2, 3, 4, 10, "a", true⟩, ⟨2, 2, 3, 4, 10, "b", true⟩]).1 =
      [⟨1, 2, 3, 4, 10, "a", false⟩, ⟨2, 2, 3, 4, 10, "b", false⟩] ∧
    reminder_task_cycle 10 (fun _ => SendOutcome.success)
        [⟨1, 2, 3, 4, 10, "a", true⟩, ⟨2, 2, 3, 4, 10, "b", true⟩] =
      ([⟨1, 2, 3, 4, 10, "a", false⟩, ⟨2, 2, 3, 4, 10, "b", false⟩], [1, 2]) := by
  refine ⟨rfl, by decide, by decide, by decide, by decide⟩

/-- In a descending-sorted list the last element has minimal timestamp. -/
theorem sorted_desc_getLast_ts : ∀ (l : List WarnRecord), List.Sorted warnDesc l →
    ∀ (hne : l ≠ []) (x : WarnRecord), x ∈ l →
    (l.getLast hne).timestamp ≤ x.timestamp := by
  intro l
  induction l with
  | nil => intro _ hne; exact absurd rfl hne
  | cons w ws ih =>
    intro h hne x hx
    rw [List.sorted_cons] at h
    rcases List.mem_cons.mp hx with rfl | hx'
    · cases ws with
      | nil => simp [List.getLast]
      | cons w2 ws2 =>
        rw [List.getLast_cons (by simp)]
        exact h.1 _ (List.getLast_mem (by simp))
    · cases ws with
      | nil => cases hx'
      | cons w2 ws2 =>
        rw [List.getLast_cons (by simp)]
        exact ih h.2 (by simp) x hx'

/-- Records of a table with pairwise distinct primary keys are determined by
their key. -/
theorem id_nodup_eq_of_eq_id : ∀ {l : List WarnRecord},
    (l.map (fun w => w.id)).Nodup → ∀ {a b : WarnRecord}, a ∈ l → b ∈ l →
    a.id = b.id → a = b := by
  intro l
  induction l with
  | nil => intro _ a b ha; cases ha
  | cons w ws ih =>
    intro h a b ha hb hid
    rw [List.map_cons, List.nodup_cons] at h
    rcases List.mem_cons.mp ha with rfl | ha' <;> rcases List.mem_cons.mp hb with rfl | hb'
    · rfl
    · exfalso
      apply h.1
      show a.id ∈ List.map (fun w => w.id) ws
      rw [hid]
      exact List.mem_map_of_mem (fun w => w.id) hb'
    · exfalso
      apply h.1
      show b.id ∈ List.map (fun w => w.id) ws
      rw [← hid]
      exact List.mem_map_of_mem (fun w => w.id) ha'
    · exact ih h.2 ha' hb' hid

/-- Deleting a member row by primary key from a key-distinct table splits the
table around exactly that row. -/
theorem removeById_split : ∀ {l : List WarnRecord} {w1 : WarnRecord},
    (l.map (fun w => w.id)).Nodup → w1 ∈ l →
    ∃ l1 l2, l = l1 ++ w1 :: l2 ∧ removeById w1.id l = l1 ++ l2 := by
  intro l
  induction l with
  | nil => intro w1 _ hmem; cases hmem
  | cons w ws ih =>
    intro w1 hnodup hmem
    rw [List.map_cons, List.nodup_cons] at hnodup
    rcases List.mem_cons.mp hmem with rfl | hmem'
    · exact ⟨[], ws, rfl, by simp [removeById]⟩
    · have hne : ¬(w.id = w1.id) := by
        intro he
        exact hnodup.1 (he ▸ List.mem_map_of_mem (fun w => w.id) hmem')
      obtain ⟨l1, l2, he, hr⟩ := ih hnodup.2 hmem'
      refine ⟨w :: l1, l2, by rw [List.cons_append, ← he], ?_⟩
      unfold removeById
      rw [if_neg hne, hr]
      rfl

/-- Unfolding equation of `removeById` on a non-empty table. -/
theorem removeById_cons (i : Nat) (w : WarnRecord) (ws : List WarnRecord) :
    removeById i (w :: ws) = if w.id = i then ws else w :: removeById i ws := rfl

/-- Unfolding equation of the pair filter on a non-empty table. -/
theorem matchingWarnings_cons (u c : Int) (w : WarnRecord) (ws : List WarnRecord) :
    matchingWarnings u c (w :: ws) =
      if (w.user_id == u && w.chat_id == c) = true then w :: matchingWarnings u c ws
      else matchingWarnings u c ws := by
  unfold matchingWarnings
  rw [List.filter_cons]

/-- Deleting a matching row by primary key commutes with the pair filter. -/
theorem matchingWarnings_removeById : ∀ (u c : Int) (tbl : List WarnRecord)
    (w1 : WarnRecord), (tbl.map (fun w => w.id)).Nodup →
    w1 ∈ matchingWarnings u c tbl →
    matchingWarnings u c (removeById w1.id tbl) =
      removeById w1.id (matchingWarnings u c tbl) := by
  intro u c tbl
  induction tbl with
  | nil => intro w1 _ hmem; cases hmem
  | cons w ws ih =>
    intro w1 hnodup hmem
    have hmemf : w1 ∈ List.filter (fun w => w.user_id == u && w.chat_id == c) (w :: ws) :=
      hmem
    have hpred : (w1.user_id == u && w1.chat_id == c) = true :=
      (List.mem_filter.mp hmemf).2
    have hw1mem : w1 ∈ w :: ws :=
      (List.mem_filter.mp hmemf).1
    by_cases hwid : w.id = w1.id
    · have hww1 : w = w1 :=
        id_nodup_eq_of_eq_id hnodup (List.mem_cons_self w ws) hw1mem hwid
      subst hww1
      rw [removeById_cons, if_pos rfl, matchingWarnings_cons, if_pos hpred,
        removeById_cons, if_pos rfl]
    · have hw1ws : w1 ∈ matchingWarnings u c ws := by
        rcases List.mem_cons.mp hw1mem with rfl | h'
        · exact absurd rfl hwid
        · exact List.mem_filter.mpr ⟨h', hpred⟩
      have hih := ih w1 (by
        rw [List.map_cons, List.nodup_cons] at hnodup
        exact hnodup.2) hw1ws
      rw [removeById_cons, if_neg hwid, matchingWarnings_cons, matchingWarnings_cons]
      by_cases hpw : (w.user_id == u && w.chat_id == c) = true
      · rw [if_pos hpw, if_pos hpw, hih, removeById_cons, if_neg hwid]
      · rw [if_neg hpw, if_neg hpw, hih]

/-- C4: for a (user, chat) pair, one unwarn invocation deletes exactly the
oldest matching warning, leaving the younger ones unchanged; with no
matching warnings the table is untouched and the reply says the user has no
warnings. -/
theorem unwarn_deletes_oldest_fifo :
    (∀ (u c : Int) (tbl : List WarnRecord), matchingWarnings u c tbl = [] →
      unwarn_command_handler u c tbl = (tbl, .noWarnings)) ∧
    (∀ (u c : Int) (tbl : List WarnRecord) (w1 : WarnRecord),
      (tbl.map (fun w => w.id)).Nodup →
      w1 ∈ matchingWarnings u c tbl →
      (∀ w ∈ matchingWarnings u c tbl, w ≠ w1 → w1.timestamp < w.timestamp) →
      unwarn_command_handler u c tbl =
        (removeById w1.id tbl, .removed ((matchingWarnings u c tbl).length - 1)) ∧
      (∃ l1 l2, matchingWarnings u c tbl = l1 ++ w1 :: l2 ∧
        matchingWarnings u c (removeById w1.id tbl) = l1 ++ l2)) := by
  constructor
  · intro u c tbl h
    unfold unwarn_command_handler orderByTimestampDesc
    rw [h]
    rfl
  · intro u c tbl w1 hnodup hmem holdest
    have hperm : (orderByTimestampDesc (matchingWarnings u c tbl)).Perm
        (matchingWarnings u c tbl) := List.perm_insertionSort warnDesc _
    have hsorted : List.Sorted warnDesc (orderByTimestampDesc (matchingWarnings u c tbl)) :=
      List.sorted_insertionSort warnDesc _
    have hne : orderByTimestampDesc (matchingWarnings u c tbl) ≠ [] := by
      intro hnil
      rw [hnil] at hperm
      rw [← hperm.nil_eq] at hmem
      cases hmem
    have hlast_mem : (orderByTimestampDesc (matchingWarnings u c tbl)).getLast hne ∈
        matchingWarnings u c tbl := hperm.mem_iff.mp (List.getLast_mem hne)
    have hlast_le : ((orderByTimestampDesc (matchingWarnings u c tbl)).getLast hne).timestamp ≤
        w1.timestamp :=
      sorted_desc_getLast_ts _ hsorted hne w1 (hperm.mem_iff.mpr hmem)
    have hlast_eq : (orderByTimestampDesc (matchingWarnings u c tbl)).getLast hne = w1 := by
      by_contra hneq
      have := holdest _ hlast_mem hneq
      omega
    have hlast : (orderByTimestampDesc (matchingWarnings u c tbl)).getLast? = some w1 := by
      rw [List.getLast?_eq_getLast _ hne, hlast_eq]
    constructor
    · unfold unwarn_command_handler
      dsimp only
      rw [hlast, hperm.length_eq]
    · have hnodupms : ((matchingWarnings u c tbl).map (fun w => w.id)).Nodup := by
        have hsub : (matchingWarnings u c tbl).Sublist tbl := List.filter_sublist tbl
        exact hnodup.sublist (hsub.map (fun w => w.id))
      obtain ⟨l1, l2, hsplit, hrem⟩ := removeById_split hnodupms hmem
      exact ⟨l1, l2, hsplit, by
        rw [matchingWarnings_removeById u c tbl w1 hnodup hmem, hrem]⟩

/-- Witness for C4: three warnings for one pair plus one for another user;
unwarn removes the oldest (id 1). -/
theorem unwarn_deletes_oldest_fifo_witness :
    unwarn_command_handler 5 7
      [⟨1, 5, 7, 9, "a", 10⟩, ⟨2, 5, 7, 9, "b", 20⟩, ⟨3, 5, 7, 9, "c", 30⟩,
        ⟨4, 6, 7, 9, "d", 1⟩] =
      (removeById 1
        [⟨1, 5, 7, 9, "a", 10⟩, ⟨2, 5, 7, 9, "b", 20⟩, ⟨3, 5, 7, 9, "c", 30⟩,
          ⟨4, 6, 7, 9, "d", 1⟩], .removed 2) :=
  (unwarn_deletes_oldest_fifo.2 5 7
    [⟨1, 5, 7, 9, "a", 10⟩, ⟨2, 5, 7, 9, "b", 20⟩, ⟨3, 5, 7, 9, "c", 30⟩,
      ⟨4, 6, 7, 9, "d", 1⟩] ⟨1, 5, 7, 9, "a", 10⟩ (by decide) (by decide) (by decide)).1

/-- The self2 collection loop appends the whole iterator output when it fits
the break bound. -/
theorem purgeCollect_all : ∀ (ms acc : List Nat) (count : Nat),
    acc.length + ms.length ≤ count + 1 → purgeCollect count acc ms = acc ++ ms := by
  intro ms
  induction ms with
  | nil => intro acc count _; simp [purgeCollect]
  | cons m ms ih =>
    intro acc count h
    unfold purgeCollect
    dsimp only
    by_cases hc : count < (acc ++ [m]).length
    · have hmsnil : ms = [] := by
        simp only [List.length_append, List.length_cons, List.length_nil] at hc
        rw [List.length_cons] at h
        have : ms.length = 0 := by omega
        exact List.length_eq_zero.mp this
      subst hmsnil
      rw [if_pos hc]
    · rw [if_neg hc]
      rw [ih (acc ++ [m]) count (by
        simp only [List.length_append, List.length_cons, List.length_nil] at h ⊢
        omega)]
      simp

/-- The self.py collection loop appends the whole iterator output when it
fits its break bound. -/
theorem purgeCollectV1_all : ∀ (ms acc : List Nat) (count : Nat),
    acc.length + ms.length ≤ count → purgeCollectV1 count acc ms = acc ++ ms := by
  intro ms
  induction ms with
  | nil => intro acc count _; simp [purgeCollectV1]
  | cons m ms ih =>
    intro acc count h
    unfold purgeCollectV1
    dsimp only
    by_cases hc : count ≤ (acc ++ [m]).length
    · have hmsnil : ms = [] := by
        simp only [List.length_append, List.length_cons, List.length_nil] at hc
        rw [List.length_cons] at h
        have : ms.length = 0 := by omega
        exact List.length_eq_zero.mp this
      subst hmsnil
      rw [if_pos hc]
    · rw [if_neg hc]
      rw [ih (acc ++ [m]) count (by
        simp only [List.length_append, List.length_cons, List.length_nil] at h ⊢
        omega)]
      simp

/-- The descending history walk from `t` of length `N` starts at `t` and
continues from `t - 1`. -/
theorem iter_messages_cons (t N : Nat) (h : 0 < N) :
    iter_messages t N = t :: iter_messages (t - 1) (N - 1) := by
  obtain ⟨n, rfl⟩ : ∃ n, N = n + 1 := ⟨N - 1, by omega⟩
  unfold iter_messages
  rw [List.range_succ_eq_map, List.map_cons, List.map_map]
  simp only [Nat.add_sub_cancel]
  have hfun : ((fun i => t - i) ∘ Nat.succ) = fun i => t - 1 - i := by
    funext i
    simp only [Function.comp_apply]
    omega
  rw [hfun, Nat.sub_zero]

/-- Elements of the descending history walk. -/
theorem iter_messages_mem (t N m : Nat) :
    m ∈ iter_messages t N ↔ ∃ i, i < N ∧ m = t - i := by
  unfold iter_messages
  simp only [List.mem_map, List.mem_range]
  constructor
  · rintro ⟨i, hi, rfl⟩
    exact ⟨i, hi, rfl⟩
  · rintro ⟨i, hi, rfl⟩
    exact ⟨i, hi, rfl⟩

/-- The history walk visits pairwise distinct ids when it does not run past
id zero. -/
theorem iter_messages_nodup (t N : Nat) (h : N ≤ t + 1) :
    (iter_messages t N).Nodup := by
  unfold iter_messages
  refine List.Nodup.map_on ?_ (List.nodup_range N)
  intro x hx y hy hxy
  rw [List.mem_range] at hx hy
  omega

/-- Length of the history walk. -/
theorem iter_messages_length (t N : Nat) : (iter_messages t N).length = N := by
  unfold iter_messages
  rw [List.length_map, List.length_range]

/-- C6: purge with a non-integer count or a count below one is rejected with
no deletion, in both source versions; purge with a positive count N
(defaulting to 1 with no argument), replying to message X in a chat whose
history around X is contiguous, deletes exactly the command message plus
the N messages counting backward from and including X, in both source
versions, which agree on the deleted set. -/
theorem purge_count_exact :
    (∀ (cmdId target : Nat) (s : String), pyIntParse s = none →
      purge_command_handler cmdId (some target) (some s) = .badCount ∧
      purge_command_handler_v1 cmdId (some target) (some s) = .badCount) ∧
    (∀ (cmdId target : Nat) (s : String) (k : Int), pyIntParse s = some k → k ≤ 0 →
      purge_command_handler cmdId (some target) (some s) = .badCount ∧
      purge_command_handler_v1 cmdId (some target) (some s) = .badCount) ∧
    (∀ (cmdId target N : Nat) (arg : Option String),
      0 < N → N ≤ target + 1 → target < cmdId →
      ((arg = none ∧ N = 1) ∨ (∃ s, arg = some s ∧ pyIntParse s = some (Int.ofNat N))) →
      ∃ L, purge_command_handler cmdId (some target) arg = .deleted L ∧
        purge_command_handler_v1 cmdId (some target) arg = .deleted L ∧
        L.length = N + 1 ∧
        (∀ m, m ∈ L ↔ (m = cmdId ∨ ∃ i, i < N ∧ m = target - i))) := by
  refine ⟨?_, ?_, ?_⟩
  · intro cmdId target s h
    have hp : parseCountArg (some s) = none := h
    constructor
    · unfold purge_command_handler
      rw [hp]
    · unfold purge_command_handler_v1
      rw [hp]
  · intro cmdId target s k h hk
    have hp : parseCountArg (some s) = some k := h
    constructor
    · unfold purge_command_handler
      rw [hp]
      dsimp only
      rw [if_pos hk]
    · unfold purge_command_handler_v1
      rw [hp]
      dsimp only
      rw [if_pos hk]
  · intro cmdId target N arg hN hNt htc harg
    have hparse : parseCountArg arg = some (Int.ofNat N) := by
      rcases harg with ⟨rfl, rfl⟩ | ⟨s, rfl, hs⟩
      · rfl
      · exact hs
    have hpos : ¬((Int.ofNat N) ≤ 0) := by
      simp only [Int.ofNat_eq_natCast]
      omega
    have htoNat : (Int.ofNat N).toNat = N := rfl
    have hcollect : purgeCollect N [cmdId] (iter_messages target N) =
        cmdId :: iter_messages target N := by
      rw [purgeCollect_all (iter_messages target N) [cmdId] N
        (by rw [iter_messages_length]; simp only [List.length_cons, List.length_nil]; omega)]
      rfl
    have hcollectV1 : purgeCollectV1 N [target] (iter_messages (target - 1) (N - 1)) =
        target :: iter_messages (target - 1) (N - 1) := by
      rw [purgeCollectV1_all (iter_messages (target - 1) (N - 1)) [target] N
        (by rw [iter_messages_length]; simp only [List.length_cons, List.length_nil]; omega)]
      rfl
    have hiter : iter_messages target N = target :: iter_messages (target - 1) (N - 1) :=
      iter_messages_cons target N hN
    have hnodup : (cmdId :: iter_messages target N).Nodup := by
      rw [List.nodup_cons]
      refine ⟨?_, iter_messages_nodup target N hNt⟩
      rw [iter_messages_mem]
      rintro ⟨i, hi, he⟩
      omega
    refine ⟨sortedSet (cmdId :: iter_messages target N), ?_, ?_, ?_, ?_⟩
    · unfold purge_command_handler
      rw [hparse]
      dsimp only
      rw [if_neg hpos, htoNat, hcollect]
    · unfold purge_command_handler_v1
      rw [hparse]
      dsimp only
      rw [if_neg hpos, htoNat, hcollectV1, ← hiter]
    · have hperm : (sortedSet (cmdId :: iter_messages target N)).Perm
          ((cmdId :: iter_messages target N).dedup) :=
        List.perm_insertionSort _ _
      rw [hperm.length_eq, List.dedup_eq_self.mpr hnodup]
      rw [List.length_cons, iter_messages_length]
    · intro m
      have hperm : (sortedSet (cmdId :: iter_messages target N)).Perm
          ((cmdId :: iter_messages target N).dedup) :=
        List.perm_insertionSort _ _
      rw [hperm.mem_iff, List.mem_dedup, List.mem_cons, iter_messages_mem]

/-- Witness for C6: replying to message 15 with count 3 and command message
20 deletes exactly messages 13, 14, 15 and 20 in both versions. -/
theorem purge_count_exact_witness :
    ∃ L, purge_command_handler 20 (some 15) (some "3") = .deleted L ∧
      purge_command_handler_v1 20 (some 15) (some "3") = .deleted L ∧
      L.length = 3 + 1 ∧
      (∀ m, m ∈ L ↔ (m = 20 ∨ ∃ i, i < 3 ∧ m = 15 - i)) :=
  purge_count_exact.2.2 20 15 3 (some "3") (by decide) (by decide) (by decide)
    (Or.inr ⟨"3", rfl, by decide⟩)

/-- Decoding inverts the alphabet table on every sextet. -/
theorem b64Val_b64Char : ∀ i, i < 64 → b64Val (b64Char i) = some i := by decide

/-- No sextet encodes to the padding character. -/
theorem b64Char_ne_pad : ∀ i, i < 64 → b64Char i ≠ '=' := by decide

/-- Base64 decoding inverts Base64 encoding on byte lists. -/
theorem b64_roundtrip : ∀ (bs : List Nat), (∀ b ∈ bs, b < 256) →
    b64DecodeChars (b64EncodeBytes bs) = some bs := by
  intro bs
  induction bs using b64EncodeBytes.induct with
  | case1 => intro _; rfl
  | case2 a =>
    intro h
    have ha : a < 256 := h a (by simp)
    unfold b64EncodeBytes b64DecodeChars
    rw [b64Val_b64Char _ (by omega), b64Val_b64Char _ (by omega)]
    dsimp only
    rw [if_pos rfl, if_pos ⟨rfl, rfl⟩]
    have he : a / 4 * 4 + a % 4 * 16 / 16 = a := by omega
    rw [he]
  | case3 a b =>
    intro h
    have ha : a < 256 := h a (by simp)
    have hb : b < 256 := h b (by simp)
    unfold b64EncodeBytes b64DecodeChars
    rw [b64Val_b64Char _ (by omega), b64Val_b64Char _ (by omega)]
    dsimp only
    rw [if_neg (b64Char_ne_pad _ (by omega))]
    rw [b64Val_b64Char _ (by omega)]
    dsimp only
    rw [if_pos rfl, if_pos rfl]
    have he1 : a / 4 * 4 + (a % 4 * 16 + b / 16) / 16 = a := by omega
    have he2 : (a % 4 * 16 + b / 16) % 16 * 16 + b % 16 * 4 / 4 = b := by omega
    rw [he1, he2]
  | case4 a b c rest ih =>
    intro h
    have ha : a < 256 := h a (by simp)
    have hb : b < 256 := h b (by simp)
    have hc : c < 256 := h c (by simp)
    have hrest := ih (fun x hx => h x (by simp [hx]))
    unfold b64EncodeBytes b64DecodeChars
    rw [b64Val_b64Char _ (by omega), b64Val_b64Char _ (by omega)]
    dsimp only
    rw [if_neg (b64Char_ne_pad _ (by omega))]
    rw [b64Val_b64Char _ (by omega)]
    dsimp only
    rw [if_neg (b64Char_ne_pad _ (by omega))]
    rw [b64Val_b64Char _ (by omega)]
    dsimp only
    rw [hrest]
    have he1 : a / 4 * 4 + (a % 4 * 16 + b / 16) / 16 = a := by omega
    have he2 : (a % 4 * 16 + b / 16) % 16 * 16 + (b % 16 * 4 + c / 64) / 4 = b := by omega
    have he3 : (b % 16 * 4 + c / 64) % 4 * 64 + c % 64 = c := by omega
    rw [he1, he2, he3]
    rfl

/-- Valid scalar values avoid the surrogate range and stay below 0x110000. -/
theorem char_valid_ranges (ch : Char) :
    ch.toNat < 0xD800 ∨ (0xDFFF < ch.toNat ∧ ch.toNat < 0x110000) := by
  have hv : Nat.isValidChar ch.toNat := ch.valid
  unfold Nat.isValidChar at hv
  exact hv

/-- UTF-8 encoding produces bytes. -/
theorem utf8EncodeChar_lt (ch : Char) : ∀ b ∈ utf8EncodeChar ch, b < 256 := by
  have hranges := char_valid_ranges ch
  have hv : ch.toNat < 1114112 := by rcases hranges with h | h <;> omega
  intro b hb
  unfold utf8EncodeChar at hb
  dsimp only at hb
  split_ifs at hb with h1 h2 h3
  · rcases List.mem_cons.mp hb with rfl | hb'
    · omega
    · cases hb'
  · rcases List.mem_cons.mp hb with rfl | hb'
    · omega
    · rcases List.mem_cons.mp hb' with rfl | hb''
      · omega
      · cases hb''
  · rcases List.mem_cons.mp hb with rfl | hb'
    · omega
    · rcases List.mem_cons.mp hb' with rfl | hb''
      · omega
      · rcases List.mem_cons.mp hb'' with rfl | hb3
        · omega
        · cases hb3
  · rcases List.mem_cons.mp hb with rfl | hb'
    · omega
    · rcases List.mem_cons.mp hb' with rfl | hb''
      · omega
      · rcases List.mem_cons.mp hb'' with rfl | hb3
        · omega
        · rcases List.mem_cons.mp hb3 with rfl | hb4
          · omega
          · cases hb4

/-- Step equation of the decoder on a start byte. -/
theorem utf8DecState_start (b : Nat) (bs : List Nat) :
    utf8DecState (b :: bs) 0 0 0 =
      if b < 0x80 then (utf8DecState bs 0 0 0).map (fun cs => Char.ofNat b :: cs)
      else if b < 0xC0 then none
      else if b < 0xE0 then utf8DecState bs 1 (b - 0xC0) 0x80
      else if b < 0xF0 then utf8DecState bs 2 (b - 0xE0) 0x800
      else if b < 0xF8 then utf8DecState bs 3 (b - 0xF0) 0x10000
      else none := rfl

/-- Step equation of the decoder on the final continuation byte. -/
theorem utf8DecState_one (b : Nat) (bs : List Nat) (val minv : Nat) :
    utf8DecState (b :: bs) 1 val minv =
      if 0x80 ≤ b ∧ b < 0xC0 then
        if minv ≤ val * 64 + (b - 0x80) ∧ val * 64 + (b - 0x80) < 0x110000 ∧
            ¬(0xD800 ≤ val * 64 + (b - 0x80) ∧ val * 64 + (b - 0x80) < 0xE000) then
          (utf8DecState bs 0 0 0).map (fun cs => Char.ofNat (val * 64 + (b - 0x80)) :: cs)
        else none
      else none := rfl

/-- Step equation of the decoder on a middle continuation byte. -/
theorem utf8DecState_more (b : Nat) (bs : List Nat) (need val minv : Nat) :
    utf8DecState (b :: bs) (need + 2) val minv =
      if 0x80 ≤ b ∧ b < 0xC0 then utf8DecState bs (need + 1) (val * 64 + (b - 0x80)) minv
      else none := rfl

/-- UTF-8 decoding inverts UTF-8 encoding one character at a time. -/
theorem utf8Decode_encodeChar (ch : Char) (rest : List Nat) :
    utf8Decode (utf8EncodeChar ch ++ rest) =
      (utf8Decode rest).map (fun cs => ch :: cs) := by
  have hranges := char_valid_ranges ch
  have hofn : Char.ofNat ch.toNat = ch := Char.ofNat_toNat ch
  unfold utf8Decode
  unfold utf8EncodeChar
  dsimp only
  by_cases h1 : ch.toNat < 0x80
  · rw [if_pos h1]
    show utf8DecState (ch.toNat :: rest) 0 0 0 = _
    rw [utf8DecState_start, if_pos h1, hofn]
  · rw [if_neg h1]
    by_cases h2 : ch.toNat < 0x800
    · rw [if_pos h2]
      show utf8DecState ((0xC0 + ch.toNat / 64) :: (0x80 + ch.toNat % 64) :: rest) 0 0 0 = _
      rw [utf8DecState_start, if_neg (by omega), if_neg (by omega), if_pos (by omega)]
      rw [utf8DecState_one, if_pos (by constructor <;> omega)]
      have he : (0xC0 + ch.toNat / 64 - 0xC0) * 64 + (0x80 + ch.toNat % 64 - 0x80) =
          ch.toNat := by omega
      rw [he, if_pos ⟨by omega, by omega, by omega⟩, hofn]
    · rw [if_neg h2]
      by_cases h3 : ch.toNat < 0x10000
      · rw [if_pos h3]
        show utf8DecState ((0xE0 + ch.toNat / 4096) :: (0x80 + ch.toNat / 64 % 64) ::
          (0x80 + ch.toNat % 64) :: rest) 0 0 0 = _
        rw [utf8DecState_start, if_neg (by omega), if_neg (by omega), if_neg (by omega),
          if_pos (by omega)]
        rw [utf8DecState_more, if_pos ⟨by omega, by omega⟩]
        rw [utf8DecState_one, if_pos ⟨by omega, by omega⟩]
        have he : ((0xE0 + ch.toNat / 4096 - 0xE0) * 64 + (0x80 + ch.toNat / 64 % 64 - 0x80))
            * 64 + (0x80 + ch.toNat % 64 - 0x80) = ch.toNat := by omega
        rw [he]
        have hsur : ¬(0xD800 ≤ ch.toNat ∧ ch.toNat < 0xE000) := by
          rcases hranges with hr | hr <;> omega
        rw [if_pos ⟨by omega, by omega, hsur⟩, hofn]
      · rw [if_neg h3]
        have hup : ch.toNat < 0x110000 := by
          rcases hranges with hr | hr
          · omega
          · exact hr.2
        show utf8DecState ((0xF0 + ch.toNat / 262144) :: (0x80 + ch.toNat / 4096 % 64) ::
          (0x80 + ch.toNat / 64 % 64) :: (0x80 + ch.toNat % 64) :: rest) 0 0 0 = _
        rw [utf8DecState_start, if_neg (by omega), if_neg (by omega), if_neg (by omega),
          if_neg (by omega), if_pos (by omega)]
        rw [utf8DecState_more, if_pos ⟨by omega, by omega⟩]
        rw [utf8DecState_more, if_pos ⟨by omega, by omega⟩]
        rw [utf8DecState_one, if_pos ⟨by omega, by omega⟩]
        have he : (((0xF0 + ch.toNat / 262144 - 0xF0) * 64 +
            (0x80 + ch.toNat / 4096 % 64 - 0x80)) * 64 +
            (0x80 + ch.toNat / 64 % 64 - 0x80)) * 64 + (0x80 + ch.toNat % 64 - 0x80) =
            ch.toNat := by omega
        rw [he]
        rw [if_pos ⟨by omega, by omega, by omega⟩, hofn]

/-- UTF-8 decoding inverts UTF-8 encoding on character lists. -/
theorem utf8_roundtrip_data : ∀ (cs : List Char),
    utf8Decode ((cs.map utf8EncodeChar).flatten) = some cs := by
  intro cs
  induction cs with
  | nil => rfl
  | cons c cs ih =>
    rw [List.map_cons, List.flatten_cons, utf8Decode_encodeChar, ih]
    rfl

/-- UTF-8 encoding of a string produces bytes. -/
theorem utf8Encode_lt (s : String) : ∀ b ∈ utf8Encode s, b < 256 := by
  intro b hb
  unfold utf8Encode at hb
  rw [List.mem_flatten] at hb
  obtain ⟨l, hl, hbl⟩ := hb
  rw [List.mem_map] at hl
  obtain ⟨c, -, rfl⟩ := hl
  exact utf8EncodeChar_lt c b hbl

/-- C9: the Base64 decode command is a left inverse of the Base64 encode
command on every Unicode text: decoding the encoder's output returns the
original string. -/
theorem base64_decode_left_inverse (s : String) :
    base64_decode_handler (base64_encode_handler s) = some s := by
  unfold base64_encode_handler base64_decode_handler
  have hdata : (String.mk (b64EncodeBytes (utf8Encode s))).data =
      b64EncodeBytes (utf8Encode s) := rfl
  rw [hdata, b64_roundtrip _ (utf8Encode_lt s)]
  dsimp only [Option.bind]
  have hd : utf8Decode (utf8Encode s) = some s.data := utf8_roundtrip_data s.data
  rw [hd]
  rfl

end Self0
